import Mathlib

/-!
Shallow embedding of the Logcat viewer's query-language engine and bounded
log store, translated from:
  * `src/lib/utils.ts` (regex cache, `parseLogcatQuery`, `matchesQuery`)
  * `src/stores/logStore.ts` (`filterLogs`, `calculateStats`, store actions)
  * `src/workers/filter.worker.ts` (the worker's copies of the parser/matcher)

Modelling conventions:
  * JS strings are Lean `String`; the JS string methods used by the code
    (`toLowerCase`, `toUpperCase`, `trim`, `includes`, `startsWith`, `slice`,
    `split`, template concatenation) are modelled over the ASCII fragment the
    code and the claims exercise (`Char.toLower`/`Char.toUpper` agree with JS
    on ASCII).
  * `JSON`-level JS numbers are `Int` (counters) or `Nat` (lengths, parsed
    digits); none of the claims exercises fractional values.
  * A compiled `RegExp`'s `test` is modelled by an explicit oracle parameter
    `compile : String → String → Option (String → Bool)` (pattern, flags):
    `none` models `new RegExp` throwing on an invalid pattern (the code's
    `try/catch` returning `null`), `some t` models a compiled regex whose
    `test` is the pure predicate `t`.  Theorems quantify over the oracle.
  * `Date.now()` is an explicit `now : Int` parameter.
-/

namespace Logcat

/-! ## JS string primitives -/

/-- JS `\s` (ASCII fragment): the whitespace characters the code can meet. -/
def isJsSpace (c : Char) : Bool :=
  c = ' ' || c = '\t' || c = '\n' || c = '\r' || c = '\x0b' || c = '\x0c'

/-- JS `String.prototype.trim` (ASCII whitespace fragment). -/
def jsTrim (s : String) : String :=
  String.mk (((s.data.dropWhile isJsSpace).reverse.dropWhile isJsSpace).reverse)

/-- JS `String.prototype.toLowerCase` (ASCII fragment). -/
def jsToLower (s : String) : String :=
  String.mk (s.data.map Char.toLower)

/-- JS `String.prototype.toUpperCase` (ASCII fragment). -/
def jsToUpper (s : String) : String :=
  String.mk (s.data.map Char.toUpper)

/-- Contiguous-sublist search used to model JS `String.prototype.includes`. -/
def containsSeq (needle : List Char) : List Char → Bool
  | [] => needle.isEmpty
  | c :: rest => needle.isPrefixOf (c :: rest) || containsSeq needle rest

/-- JS `haystack.includes(needle)`: contiguous substring containment. -/
def strIncludes (haystack needle : String) : Bool :=
  containsSeq needle.data haystack.data

/-- JS regex `\\w`: `[A-Za-z0-9_]`. -/
def isWordChar (c : Char) : Bool :=
  c.isAlpha || c.isDigit || c = '_'

/-- JS `s.startsWith(pre)` (kernel-reducible list version). -/
def strStartsWith (s pre : String) : Bool :=
  pre.data.isPrefixOf s.data

/-- JS `s.slice(n)` on character counts (kernel-reducible list version). -/
def strDrop (s : String) (n : Nat) : String :=
  String.mk (s.data.drop n)

/-- JS `s.split(sep)` for a non-empty separator, on character lists.
Structural recursion on a fuel counter (initialised to the input length,
which the scan can never exhaust) keeps the definition kernel-reducible. -/
def splitOnFuel (sep : List Char) : Nat → List Char → List Char → List (List Char)
  | _, [], acc => [acc.reverse]
  | 0, cs, acc => [acc.reverse ++ cs]
  | fuel + 1, c :: rest, acc =>
    if sep.isPrefixOf (c :: rest) ∧ sep ≠ [] then
      acc.reverse :: splitOnFuel sep fuel (rest.drop (sep.length - 1)) []
    else
      splitOnFuel sep fuel rest (c :: acc)

/-- JS `s.split(sep)`. -/
def strSplitOn (s sep : String) : List String :=
  (splitOnFuel sep.data s.data.length s.data []).map String.mk

/-- JS `parts.join(sep)`. -/
def strJoinSep (sep : String) : List String → String
  | [] => ""
  | [x] => x
  | x :: xs => x ++ sep ++ strJoinSep sep xs

/-! ## Query data model (`lib/utils.ts` / `filter.worker.ts`) -/

/-- `type MatchMode = "contains" | "exact" | "regex"`. -/
inductive MatchMode where
  | contains
  | exact
  | regex
deriving DecidableEq, Repr

/-- `interface FilterCondition { value; mode; exclude }`. -/
structure FilterCondition where
  value : String
  mode : MatchMode
  exclude : Bool
deriving DecidableEq, Repr

/-- `interface OrGroup { conditions: FilterCondition[] }`. -/
structure OrGroup where
  conditions : List FilterCondition
deriving DecidableEq, Repr

/-- `age: { value: number; unit: string }` inside `ParsedQuery`. -/
structure Age where
  value : Nat
  unit : String
deriving DecidableEq, Repr

/-- `interface ParsedQuery` from `lib/utils.ts` (identical in the worker). -/
structure ParsedQuery where
  text : String
  tagGroups : List OrGroup
  packageGroups : List OrGroup
  messageGroups : List OrGroup
  minLevel : Option String
  age : Option Age
  isCrash : Bool
  isStacktrace : Bool
deriving DecidableEq, Repr

/-- The freshly initialised `result` object in `parseLogcatQuery`. -/
def emptyParsedQuery : ParsedQuery :=
  { text := "", tagGroups := [], packageGroups := [], messageGroups := [],
    minLevel := none, age := none, isCrash := false, isStacktrace := false }

/-- Result shape of both `parseKeyValue` implementations. -/
structure KV where
  key : String
  value : String
  mode : MatchMode
  exclude : Bool
deriving DecidableEq, Repr

/-! ## Query parser (`lib/utils.ts` lines 253-452, `filter.worker.ts` lines 61-253)

The two files share `tokenize`, the `|`-split, `processOtherKeys` and the
whole loop structure verbatim; they differ only in `parseKeyValue`.  The
common structure is therefore defined once, parameterised by the
`parseKeyValue` variant, and instantiated twice. -/

/-- JS `token.match(/^(\w+)SEP(.+)$/i)`, where `SEP` is one of `~:`, `=:`,
`:`.  Since `SEP`'s first character is not a word character, the key group
is forced to be the maximal leading `\w` run, followed literally by `SEP`;
the value is the non-empty remainder, in which `.` forbids newlines. -/
def matchKeyRe (sep : String) (token : String) : Option (String × String) :=
  let keyRun := token.data.takeWhile isWordChar
  let rest := String.mk (token.data.dropWhile isWordChar)
  if keyRun ≠ [] ∧ strStartsWith rest sep then
    let value := strDrop rest sep.data.length
    if value ≠ "" ∧ ¬ value.data.contains '\n' then
      some (String.mk keyRun, value)
    else none
  else none

/-- `parseKeyValue` from `lib/utils.ts` (regex-based: `~:` before `=:`
before `:`, each anchored as `^(\w+)SEP(.+)$`). -/
def parseKeyValue (token : String) : Option KV :=
  let isExclude := strStartsWith token "-"
  let cleanToken := if isExclude then strDrop token 1 else token
  match matchKeyRe "~:" cleanToken with
  | some (k, v) => some { key := jsToLower k, value := v, mode := .regex, exclude := isExclude }
  | none =>
    match matchKeyRe "=:" cleanToken with
    | some (k, v) => some { key := jsToLower k, value := v, mode := .exact, exclude := isExclude }
    | none =>
      match matchKeyRe ":" cleanToken with
      | some (k, v) => some { key := jsToLower k, value := v, mode := .contains, exclude := isExclude }
      | none => none

/-- JS `value.replace(/^["']|["']$/g, "")`: strip one leading and one
trailing quote character. -/
def stripEdgeQuotes (s : String) : String :=
  let cs :=
    match s.data with
    | c :: rest => if c = '"' ∨ c = '\'' then rest else c :: rest
    | [] => []
  let cs' :=
    match cs.reverse with
    | c :: rest => if c = '"' ∨ c = '\'' then rest.reverse else cs
    | [] => cs
  String.mk cs'

/-- `parseKeyValue` from `filter.worker.ts` (substring-based: `=:` before
`~:` before `:`, splitting on the first separator occurrences and
re-joining the tail). -/
def workerParseKeyValue (token : String) : Option KV :=
  let exclude := strStartsWith token "-"
  let cleanToken := if exclude then strDrop token 1 else token
  let sepMode : Option (String × MatchMode) :=
    if strIncludes cleanToken "=:" then some ("=:", .exact)
    else if strIncludes cleanToken "~:" then some ("~:", .regex)
    else if strIncludes cleanToken ":" then some (":", .contains)
    else none
  match sepMode with
  | none => none
  | some (separator, mode) =>
    let parts := strSplitOn cleanToken separator
    if parts.length < 2 then none
    else
      let key := jsToLower (parts.headD "")
      let value := stripEdgeQuotes (strJoinSep separator parts.tail)
      some { key := key, value := value, mode := mode, exclude := exclude }

/-- The `tokenize` helper (identical in both files): split on spaces,
toggling an in-quotes flag on `"` and `'` (quote characters are dropped),
pushing each non-blank `current.trim()`. -/
def tokenizeGo : List Char → String → Bool → List String
  | [], current, _ =>
    if jsTrim current ≠ "" then [jsTrim current] else []
  | c :: rest, current, inQuotes =>
    if c = '"' ∨ c = '\'' then
      tokenizeGo rest current (!inQuotes)
    else if c = ' ' ∧ inQuotes = false then
      (if jsTrim current ≠ "" then [jsTrim current] else []) ++ tokenizeGo rest "" inQuotes
    else
      tokenizeGo rest (current.push c) inQuotes

def tokenize (input : String) : List String :=
  tokenizeGo input.data "" false

/-- The `|`-split loop at the top of both `parseLogcatQuery` copies: split
on `|` outside quotes; quote characters toggle the flag but are kept in
the segment; each non-blank `current.trim()` is pushed. -/
def splitOrPartsGo : List Char → String → Bool → List String
  | [], current, _ =>
    if jsTrim current ≠ "" then [jsTrim current] else []
  | c :: rest, current, inQuotes =>
    if c = '"' ∨ c = '\'' then
      splitOrPartsGo rest (current.push c) (!inQuotes)
    else if c = '|' ∧ inQuotes = false then
      (if jsTrim current ≠ "" then [jsTrim current] else []) ++ splitOrPartsGo rest "" inQuotes
    else
      splitOrPartsGo rest (current.push c) inQuotes

def splitOrParts (query : String) : List String :=
  splitOrPartsGo query.data "" false

/-- JS `/^(\d+)([smhd])$/i` applied to an `age:` value. -/
def parseAgeValue (v : String) : Option Age :=
  let digits := v.data.takeWhile Char.isDigit
  let rest := v.data.dropWhile Char.isDigit
  match digits, rest with
  | [], _ => none
  | _, [u] =>
    if ['s', 'm', 'h', 'd'].contains u.toLower then
      some { value := digits.foldl (fun n c => n * 10 + (c.toNat - 48)) 0,
             unit := String.mk [u.toLower] }
    else none
  | _, _ => none

/-- The twelve accepted `level:` spellings. -/
def levelNames : List String :=
  ["VERBOSE", "DEBUG", "INFO", "WARN", "ERROR", "ASSERT",
   "V", "D", "I", "W", "E", "A"]

/-- `processOtherKeys` (identical in both files): handles `level`, `age`,
`is`. -/
def processOtherKeys (parsed : KV) (result : ParsedQuery) : ParsedQuery :=
  if parsed.key = "level" then
    let levelValue := jsToUpper parsed.value
    if levelNames.contains levelValue then
      { result with minLevel := some levelValue }
    else result
  else if parsed.key = "age" then
    match parseAgeValue parsed.value with
    | some a => { result with age := some a }
    | none => result
  else if parsed.key = "is" then
    let isValue := jsToLower parsed.value
    if isValue = "crash" then { result with isCrash := true }
    else if isValue = "stacktrace" then { result with isStacktrace := true }
    else result
  else result

/-- Loop body of the single-segment (`AND`) branch of `parseLogcatQuery`:
each recognised field condition becomes its own single-condition group;
tokens that fail `parseKeyValue` and do not start with `-` are appended to
the free text. -/
def processToken (pkv : String → Option KV) (acc : ParsedQuery) (token : String) :
    ParsedQuery :=
  match pkv token with
  | some parsed =>
    let condition : FilterCondition :=
      { value := parsed.value, mode := parsed.mode, exclude := parsed.exclude }
    let acc :=
      if parsed.key = "tag" then
        { acc with tagGroups := acc.tagGroups ++ [{ conditions := [condition] }] }
      else if parsed.key = "package" then
        { acc with packageGroups := acc.packageGroups ++ [{ conditions := [condition] }] }
      else if parsed.key = "message" then
        { acc with messageGroups := acc.messageGroups ++ [{ conditions := [condition] }] }
      else acc
    processOtherKeys parsed acc
  | none =>
    if ¬ strStartsWith token "-" then
      { acc with text := jsTrim (acc.text ++ " " ++ token) }
    else acc

/-- Accumulator of the multi-segment (`OR`) branch: per-field merged
condition lists plus the `result` object being built. -/
structure OrAccum where
  tagConds : List FilterCondition
  packageConds : List FilterCondition
  messageConds : List FilterCondition
  result : ParsedQuery
deriving DecidableEq, Repr

/-- Loop body of the multi-segment branch of `parseLogcatQuery`: conditions
for the same field across all segments are collected into one list. -/
def processTokenOr (pkv : String → Option KV) (acc : OrAccum) (token : String) :
    OrAccum :=
  match pkv token with
  | some parsed =>
    let condition : FilterCondition :=
      { value := parsed.value, mode := parsed.mode, exclude := parsed.exclude }
    let acc :=
      if parsed.key = "tag" then
        { acc with tagConds := acc.tagConds ++ [condition] }
      else if parsed.key = "package" then
        { acc with packageConds := acc.packageConds ++ [condition] }
      else if parsed.key = "message" then
        { acc with messageConds := acc.messageConds ++ [condition] }
      else acc
    { acc with result := processOtherKeys parsed acc.result }
  | none =>
    if ¬ strStartsWith token "-" then
      { acc with result := { acc.result with
          text := jsTrim (acc.result.text ++ " " ++ token) } }
    else acc

/-- `parseLogcatQuery`, parameterised by the `parseKeyValue` variant (the
only point where `lib/utils.ts` and `filter.worker.ts` differ). -/
def parseLogcatQueryWith (pkv : String → Option KV) (query : String) : ParsedQuery :=
  if jsTrim query = "" then emptyParsedQuery
  else
    let orParts := splitOrParts query
    if orParts.length > 1 then
      let acc := orParts.foldl
        (fun a part => (tokenize part).foldl (processTokenOr pkv) a)
        { tagConds := [], packageConds := [], messageConds := [],
          result := emptyParsedQuery }
      let r := acc.result
      let r :=
        if acc.tagConds ≠ [] then
          { r with tagGroups := r.tagGroups ++ [{ conditions := acc.tagConds }] }
        else r
      let r :=
        if acc.packageConds ≠ [] then
          { r with packageGroups := r.packageGroups ++ [{ conditions := acc.packageConds }] }
        else r
      let r :=
        if acc.messageConds ≠ [] then
          { r with messageGroups := r.messageGroups ++ [{ conditions := acc.messageConds }] }
        else r
      r
    else
      (tokenize query).foldl (processToken pkv) emptyParsedQuery

/-- `parseLogcatQuery` from `lib/utils.ts`. -/
def parseLogcatQuery (query : String) : ParsedQuery :=
  parseLogcatQueryWith parseKeyValue query

/-- `parseLogcatQuery` from `filter.worker.ts`. -/
def workerParseLogcatQuery (query : String) : ParsedQuery :=
  parseLogcatQueryWith workerParseKeyValue query

/-! ## Log records (`types/index.ts`) -/

/-- `type LogLevel = "V" | "D" | "I" | "W" | "E" | "A"`. -/
inductive LogLevel where
  | V
  | D
  | I
  | W
  | E
  | A
deriving DecidableEq, Repr

/-- The record's level as the string it is in JS. -/
def LogLevel.str : LogLevel → String
  | .V => "V"
  | .D => "D"
  | .I => "I"
  | .W => "W"
  | .E => "E"
  | .A => "A"

/-- `interface LogEntry` (the fields the core reads; `raw` is never read by
the parser/matcher/store and is omitted). -/
structure LogEntry where
  id : Int
  timestamp : String
  dateTime : Option String := none
  epoch : Option Int := none
  pid : Int
  tid : Int
  level : LogLevel
  tag : String
  message : String
  packageName : Option String := none
  processName : Option String := none
deriving DecidableEq, Repr

/-! ## Query matcher (`lib/utils.ts` lines 454-613, `filter.worker.ts` lines 255-400)

Apart from the regex flags inside `matchCondition` ("i" in `lib/utils.ts`,
"gi" in the worker) the two matchers are line-for-line identical, so the
shared body is parameterised by the condition matcher. -/

/-- The compiled-`RegExp` oracle type: `compile pattern flags` is `none`
when `new RegExp(pattern, flags)` would throw, otherwise `some test`. -/
abbrev RegexOracle := String → String → Option (String → Bool)

/-- `matchCondition` from `lib/utils.ts`: lower-cases both sides for
contains/exact; regex mode tests the raw value with an "i"-flag regex
(`getCachedRegex(condition.value, "i")`), a failed compile never matches;
`exclude` negates. -/
def matchCondition (compile : RegexOracle) (value : String)
    (condition : FilterCondition) : Bool :=
  let v := jsToLower value
  let c := jsToLower condition.value
  let m :=
    match condition.mode with
    | .exact => v = c
    | .regex =>
      match compile condition.value "i" with
      | some test => test value
      | none => false
    | .contains => strIncludes v c
  if condition.exclude then !m else m

/-- `matchCondition` from `filter.worker.ts`: identical except the regex is
compiled with `getCachedRegex(condition.value, false)`, i.e. flags "gi". -/
def workerMatchCondition (compile : RegexOracle) (value : String)
    (condition : FilterCondition) : Bool :=
  let v := jsToLower value
  let c := jsToLower condition.value
  let m :=
    match condition.mode with
    | .exact => v = c
    | .regex =>
      match compile condition.value "gi" with
      | some test => test value
      | none => false
    | .contains => strIncludes v c
  if condition.exclude then !m else m

/-- `matchOrGroup` (shared body): empty group matches; all exclude
conditions must pass; if include conditions exist, at least one must
match. -/
def matchOrGroupWith (mc : String → FilterCondition → Bool) (value : String)
    (group : OrGroup) : Bool :=
  if group.conditions = [] then true
  else
    let includes := group.conditions.filter (fun c => !c.exclude)
    let excludes := group.conditions.filter (fun c => c.exclude)
    if excludes.all (fun cond => mc value cond) then
      if includes ≠ [] then includes.any (fun cond => mc value cond)
      else true
    else false

/-- `levelOrder` from `matchesQuery`. -/
def levelOrder : List String :=
  ["V", "VERBOSE", "D", "DEBUG", "I", "INFO", "W", "WARN", "E", "ERROR", "A", "ASSERT"]

/-- JS `Array.prototype.indexOf`: index of the first occurrence, `-1` when
absent. -/
def jsIndexOf (l : List String) (s : String) : Int :=
  match l.indexOf? s with
  | some i => (i : Int)
  | none => -1

/-- `Math.floor(i / 2) * 2` on an integer index. -/
def norm2 (i : Int) : Int :=
  (Int.fdiv i 2) * 2

/-- JS `[\w.$]`. -/
def isWordDotDollar (c : Char) : Bool :=
  isWordChar c || c = '.' || c = '$'

/-- JS `[\w.]`. -/
def isWordDot (c : Char) : Bool :=
  isWordChar c || c = '.'

/-- JS `message.match(/^\s+at\s+[\w.$]+\([\w.]+:\d+\)/)` as a Boolean.
Every character class here is disjoint from the literal that follows it,
so the greedy maximal-run reading is the exact regex semantics. -/
def jsMatchStackRe (s : String) : Bool :=
  let cs := s.data
  !(cs.takeWhile isJsSpace).isEmpty &&
  (match cs.dropWhile isJsSpace with
   | 'a' :: 't' :: r2 =>
     !(r2.takeWhile isJsSpace).isEmpty &&
     (let r3 := r2.dropWhile isJsSpace
      !(r3.takeWhile isWordDotDollar).isEmpty &&
      (match r3.dropWhile isWordDotDollar with
       | '(' :: r5 =>
         !(r5.takeWhile isWordDot).isEmpty &&
         (match r5.dropWhile isWordDot with
          | ':' :: r7 =>
            !(r7.takeWhile Char.isDigit).isEmpty &&
            (match r7.dropWhile Char.isDigit with
             | ')' :: _ => true
             | _ => false)
          | _ => false)
       | _ => false))
   | _ => false)

/-- `matchesQuery` (shared body), with the ambient `Date.now()` made an
explicit `now` parameter and the condition matcher a parameter.  Mirrors
the evaluation order of the source: level, tag groups, package groups
(with the `mine` bypass), message groups, age (guarded by the JS
truthiness of `entry.epoch`, so an epoch of `0` skips the check), crash
heuristic, stacktrace heuristic, free text. -/
def matchesQueryWith (mc : String → FilterCondition → Bool) (now : Int)
    (entry : LogEntry) (query : ParsedQuery) (isCaseSensitive : Bool) : Bool :=
  -- Level filter (level:INFO means INFO and above); `if (query.minLevel)`
  -- is false for both `undefined` and the empty string.
  (match query.minLevel with
   | some ml =>
     if ml ≠ "" then
       let entryLevelIndex := jsIndexOf levelOrder entry.level.str
       let queryLevelIndex := jsIndexOf levelOrder ml
       decide (norm2 entryLevelIndex ≥ norm2 queryLevelIndex)
     else true
   | none => true) &&
  -- Tag filter (all groups must match - AND between groups)
  query.tagGroups.all (fun group => matchOrGroupWith mc entry.tag group) &&
  -- Package filter, with the special "mine" bypass
  (let packageName := entry.packageName.getD ""
   query.packageGroups.all (fun group =>
     group.conditions.any (fun c => jsToLower c.value = "mine" && !c.exclude) ||
     matchOrGroupWith mc packageName group)) &&
  -- Message filter
  query.messageGroups.all (fun group => matchOrGroupWith mc entry.message group) &&
  -- Age filter: `if (query.age && entry.epoch)`
  (match query.age, entry.epoch with
   | some age, some epoch =>
     if epoch ≠ 0 then
       let maxAge : Int :=
         if age.unit = "s" then (age.value : Int) * 1000
         else if age.unit = "m" then (age.value : Int) * 60 * 1000
         else if age.unit = "h" then (age.value : Int) * 60 * 60 * 1000
         else if age.unit = "d" then (age.value : Int) * 24 * 60 * 60 * 1000
         else 0
       decide (now - epoch ≤ maxAge)
     else true
   | _, _ => true) &&
  -- Crash filter
  (if query.isCrash then
     strIncludes entry.message "FATAL EXCEPTION" ||
     strIncludes entry.message "AndroidRuntime" ||
     entry.tag = "AndroidRuntime" ||
     strIncludes entry.message "native crash" ||
     strIncludes entry.message "SIGSEGV" ||
     strIncludes entry.message "SIGABRT"
   else true) &&
  -- Stacktrace filter
  (if query.isStacktrace then
     strIncludes entry.message "\tat " ||
     strIncludes entry.message "at java." ||
     strIncludes entry.message "at android." ||
     strIncludes entry.message "at kotlin." ||
     jsMatchStackRe entry.message
   else true) &&
  -- Text search (searches in tag and message); `if (query.text)` is false
  -- for the empty string.
  (if query.text ≠ "" then
     let searchTarget := entry.tag ++ " " ++ entry.message
     if isCaseSensitive then
       strIncludes searchTarget query.text
     else
       strIncludes (jsToLower searchTarget) (jsToLower query.text)
   else true)

/-- `matchesQuery` from `lib/utils.ts`. -/
def matchesQuery (compile : RegexOracle) (now : Int) (entry : LogEntry)
    (query : ParsedQuery) (isCaseSensitive : Bool) : Bool :=
  matchesQueryWith (matchCondition compile) now entry query isCaseSensitive

/-- `matchesQuery` from `filter.worker.ts`. -/
def workerMatchesQuery (compile : RegexOracle) (now : Int) (entry : LogEntry)
    (query : ParsedQuery) (isCaseSensitive : Bool) : Bool :=
  matchesQueryWith (workerMatchCondition compile) now entry query isCaseSensitive

/-! ## Log store (`stores/logStore.ts`) -/

/-- `interface FilterConfig` (the `id`/`name` metadata fields are never
read by the filtering path and are omitted). -/
structure FilterConfig where
  levels : List LogLevel
  tags : List String
  packageName : Option String := none
  pid : Option Int := none
  searchText : String
  isRegex : Bool
  isCaseSensitive : Bool
deriving DecidableEq, Repr

/-- `DEFAULT_FILTER` from `types/index.ts`. -/
def DEFAULT_FILTER : FilterConfig :=
  { levels := [.V, .D, .I, .W, .E, .A], tags := [],
    searchText := "", isRegex := false, isCaseSensitive := false }

/-- `AppSettings` restricted to the only field the store's log path reads
(`maxLogLines`); the remaining fields are display options that never enter
the functions the claims are about. -/
structure AppSettings where
  maxLogLines : Nat
deriving DecidableEq, Repr

/-- `DEFAULT_SETTINGS.maxLogLines = 100000`. -/
def DEFAULT_SETTINGS : AppSettings :=
  { maxLogLines := 100000 }

/-- The `byLevel : Record<LogLevel, number>` object. -/
structure ByLevel where
  v : Nat
  d : Nat
  i : Nat
  w : Nat
  e : Nat
  a : Nat
deriving DecidableEq, Repr

def ByLevel.zero : ByLevel := ⟨0, 0, 0, 0, 0, 0⟩

def ByLevel.get (b : ByLevel) : LogLevel → Nat
  | .V => b.v
  | .D => b.d
  | .I => b.i
  | .W => b.w
  | .E => b.e
  | .A => b.a

/-- `nextByLevel[entry.level] = (nextByLevel[entry.level] ?? 0) + 1`. -/
def ByLevel.inc (b : ByLevel) : LogLevel → ByLevel
  | .V => { b with v := b.v + 1 }
  | .D => { b with d := b.d + 1 }
  | .I => { b with i := b.i + 1 }
  | .W => { b with w := b.w + 1 }
  | .E => { b with e := b.e + 1 }
  | .A => { b with a := b.a + 1 }

/-- `nextByLevel[entry.level] = Math.max(0, (nextByLevel[entry.level] ?? 0) - 1)`;
`Nat` subtraction is exactly the clamped decrement. -/
def ByLevel.dec (b : ByLevel) : LogLevel → ByLevel
  | .V => { b with v := b.v - 1 }
  | .D => { b with d := b.d - 1 }
  | .I => { b with i := b.i - 1 }
  | .W => { b with w := b.w - 1 }
  | .E => { b with e := b.e - 1 }
  | .A => { b with a := b.a - 1 }

/-- `interface LogStats`. -/
structure LogStats where
  total : Int
  filtered : Int
  byLevel : ByLevel
deriving DecidableEq, Repr

/-- `interface ProcessInfo` (fields used by `selectProcess`). -/
structure ProcessInfo where
  pid : Int
  name : String
deriving DecidableEq, Repr

/-- `escapeRegex` from `lib/utils.ts`: prefix every regex metacharacter
with a backslash. -/
def escapeRegex (s : String) : String :=
  let specials : List Char :=
    ['.', '*', '+', '?', '^', '$', Char.ofNat 123, Char.ofNat 125,
     '(', ')', '|', '[', ']', '\\']
  String.mk (s.data.flatMap (fun c => if specials.contains c then ['\\', c] else [c]))

/-- `createSearchRegex` from `lib/utils.ts`: `null` for empty text,
otherwise the (cached) regex over the raw or escaped pattern with flags
`"g"`/`"gi"`. -/
def createSearchRegex (compile : RegexOracle) (searchText : String)
    (isRegex : Bool) (isCaseSensitive : Bool) : Option (String → Bool) :=
  if searchText = "" then none
  else
    compile (if isRegex then searchText else escapeRegex searchText)
      (if isCaseSensitive then "g" else "gi")

/-- `filterLogs` from `stores/logStore.ts`.  Note: the store calls
`matchesQuery(log, parsedQuery)` WITHOUT forwarding
`filter.isCaseSensitive`, so the matcher runs with the JS default
`isCaseSensitive = false`; the flag only reaches the supplemental
regex built in `isRegex` mode. -/
def filterLogs (compile : RegexOracle) (now : Int) (logs : List LogEntry)
    (filter : FilterConfig) : List LogEntry :=
  let parsedQuery := parseLogcatQuery filter.searchText
  let regex : Option (String → Bool) :=
    if filter.isRegex && parsedQuery.text ≠ "" then
      createSearchRegex compile parsedQuery.text true filter.isCaseSensitive
    else none
  logs.filter fun log =>
    matchesQuery compile now log parsedQuery false &&
    (match regex with
     | some test => test (log.tag ++ " " ++ log.message)
     | none => true) &&
    (match filter.pid with
     | some p => decide (log.pid = p)
     | none => true)

/-- `filterLogs` from `filter.worker.ts`: same shape, but it uses the
worker's parser and matcher, forwards `filter.isCaseSensitive` to the
matcher, and compiles the `isRegex` regex through the worker cache
(flags `"g"`/`"gi"`). -/
def workerFilterLogs (compile : RegexOracle) (now : Int) (logs : List LogEntry)
    (filter : FilterConfig) : List LogEntry :=
  let parsedQuery := workerParseLogcatQuery filter.searchText
  let regex : Option (String → Bool) :=
    if filter.isRegex && parsedQuery.text ≠ "" then
      compile parsedQuery.text (if filter.isCaseSensitive then "g" else "gi")
    else none
  logs.filter fun log =>
    workerMatchesQuery compile now log parsedQuery filter.isCaseSensitive &&
    (match regex with
     | some test => test (log.tag ++ " " ++ log.message)
     | none => true) &&
    (match filter.pid with
     | some p => decide (log.pid = p)
     | none => true)

/-- `(logs.filter(l => l.level == lvl)).length`. -/
def countLevel (logs : List LogEntry) (lvl : LogLevel) : Nat :=
  (logs.filter (fun entry => entry.level = lvl)).length

/-- `calculateStats`: the `forEach` increment loop produces exactly the
per-level occurrence counts. -/
def calculateStats (logs filteredLogs : List LogEntry) : LogStats :=
  { total := (logs.length : Int),
    filtered := (filteredLogs.length : Int),
    byLevel := ⟨countLevel logs .V, countLevel logs .D, countLevel logs .I,
                countLevel logs .W, countLevel logs .E, countLevel logs .A⟩ }

/-- The slice of the zustand store state that the claims are about
(devices, presets, history and pure UI flags are omitted: no claimed
operation reads them back into this slice). -/
structure LogState where
  logs : List LogEntry
  filteredLogs : List LogEntry
  filter : FilterConfig
  isPaused : Bool
  settings : AppSettings
  stats : LogStats
  selectedProcess : Option ProcessInfo
deriving DecidableEq, Repr

/-- The store's initial state. -/
def initialState : LogState :=
  { logs := [], filteredLogs := [], filter := DEFAULT_FILTER,
    isPaused := false, settings := DEFAULT_SETTINGS,
    stats := { total := 0, filtered := 0, byLevel := ByLevel.zero },
    selectedProcess := none }

/-- `addLogs` from `stores/logStore.ts`.  The JS `preservedFiltered !==
filteredLogs ? ... : filteredLogs` dance only avoids re-allocation; its
value is always `preservedFiltered ++ appendedFiltered`. -/
def addLogs (compile : RegexOracle) (now : Int) (s : LogState)
    (entries : List LogEntry) : LogState :=
  if s.isPaused || entries.isEmpty then s
  else
    let mergedLogs := s.logs ++ entries
    let excess :=
      if mergedLogs.length > s.settings.maxLogLines then
        mergedLogs.length - s.settings.maxLogLines
      else 0
    let removedLogs := mergedLogs.take excess
    let keptLogs := mergedLogs.drop excess
    let preservedFiltered :=
      if removedLogs.isEmpty then s.filteredLogs
      else s.filteredLogs.filter (fun entry =>
        !(removedLogs.any (fun r => r.id = entry.id)))
    let appendedFiltered := filterLogs compile now entries s.filter
    let newFilteredLogs := preservedFiltered ++ appendedFiltered
    let nextByLevel :=
      removedLogs.foldl (fun b entry => b.dec entry.level)
        (entries.foldl (fun b entry => b.inc entry.level) s.stats.byLevel)
    let newStats : LogStats :=
      { total := s.stats.total + (entries.length : Int) - (removedLogs.length : Int),
        filtered := (newFilteredLogs.length : Int),
        byLevel := nextByLevel }
    { s with logs := keptLogs, filteredLogs := newFilteredLogs, stats := newStats }

/-- A `Partial<FilterConfig>` argument to `setFilter`: `none` means the
field is absent from the patch object and keeps its old value; for `pid`
(itself optional) an explicit `pid: undefined` is `some none`. -/
structure FilterPatch where
  levels : Option (List LogLevel) := none
  tags : Option (List String) := none
  packageName : Option (Option String) := none
  pid : Option (Option Int) := none
  searchText : Option String := none
  isRegex : Option Bool := none
  isCaseSensitive : Option Bool := none
deriving DecidableEq, Repr

/-- The spread `{ ...filter, ...newFilter }`. -/
def applyPatch (f : FilterConfig) (p : FilterPatch) : FilterConfig :=
  { levels := p.levels.getD f.levels,
    tags := p.tags.getD f.tags,
    packageName := p.packageName.getD f.packageName,
    pid := p.pid.getD f.pid,
    searchText := p.searchText.getD f.searchText,
    isRegex := p.isRegex.getD f.isRegex,
    isCaseSensitive := p.isCaseSensitive.getD f.isCaseSensitive }

/-- `setFilter`: merge the patch, fully recompute `filteredLogs` and the
stats from `logs`. -/
def setFilter (compile : RegexOracle) (now : Int) (s : LogState)
    (newFilter : FilterPatch) : LogState :=
  let updatedFilter := applyPatch s.filter newFilter
  let newFilteredLogs := filterLogs compile now s.logs updatedFilter
  let newStats := calculateStats s.logs newFilteredLogs
  { s with filter := updatedFilter, filteredLogs := newFilteredLogs,
           stats := newStats }

/-- `resetFilter`: back to `DEFAULT_FILTER`, full recompute. -/
def resetFilter (compile : RegexOracle) (now : Int) (s : LogState) : LogState :=
  let newFilteredLogs := filterLogs compile now s.logs DEFAULT_FILTER
  let newStats := calculateStats s.logs newFilteredLogs
  { s with filter := DEFAULT_FILTER, filteredLogs := newFilteredLogs,
           stats := newStats }

/-- `clearLogs`. -/
def clearLogs (s : LogState) : LogState :=
  { s with logs := [], filteredLogs := [],
           stats := { total := 0, filtered := 0, byLevel := ByLevel.zero } }

/-- `importLogs`: replace `logs` wholesale, full recompute against the
current filter, and pause. -/
def importLogs (compile : RegexOracle) (now : Int) (s : LogState)
    (entries : List LogEntry) : LogState :=
  let newFilteredLogs := filterLogs compile now entries s.filter
  let newStats := calculateStats entries newFilteredLogs
  { s with logs := entries, filteredLogs := newFilteredLogs,
           stats := newStats, isPaused := true }

/-- `selectProcess`: record the selection, then route the pid (or an
explicit `undefined`) through `setFilter`. -/
def selectProcess (compile : RegexOracle) (now : Int) (s : LogState)
    (process : Option ProcessInfo) : LogState :=
  let s := { s with selectedProcess := process }
  match process with
  | some p => setFilter compile now s { pid := some (some p.pid) }
  | none => setFilter compile now s { pid := some none }

/-- `togglePause`. -/
def togglePause (s : LogState) : LogState :=
  { s with isPaused := !s.isPaused }

/-- States reachable from the initial store state by the claimed
operations; every step may observe an arbitrary clock value and an
arbitrary compiled-regex oracle. -/
inductive Reachable : LogState → Prop where
  | init : Reachable initialState
  | addLogs {s} (compile : RegexOracle) (now : Int) (entries : List LogEntry) :
      Reachable s → Reachable (addLogs compile now s entries)
  | setFilter {s} (compile : RegexOracle) (now : Int) (p : FilterPatch) :
      Reachable s → Reachable (setFilter compile now s p)
  | resetFilter {s} (compile : RegexOracle) (now : Int) :
      Reachable s → Reachable (resetFilter compile now s)
  | clearLogs {s} : Reachable s → Reachable (clearLogs s)
  | importLogs {s} (compile : RegexOracle) (now : Int) (entries : List LogEntry) :
      Reachable s → Reachable (importLogs compile now s entries)

/-! ## Derived notions and concrete fixtures used by the verification -/

/-- Sum of the per-severity counters over the six levels. -/
def sumByLevel (b : ByLevel) : Nat :=
  b.v + b.d + b.i + b.w + b.e + b.a

/-- The strengthened stats invariant: each per-severity counter is the
exact occurrence count in `logs`, and `total` is `logs.length`. -/
def statsCountInv (s : LogState) : Prop :=
  (∀ l : LogLevel, s.stats.byLevel.get l = countLevel s.logs l) ∧
  s.stats.total = (s.logs.length : Int)

/-- The multiset of tokens a query is cut into by `parseLogcatQuery`
(union over the OR segments when there are several). -/
def queryTokens (query : String) : List String :=
  let orParts := splitOrParts query
  if orParts.length > 1 then orParts.flatMap tokenize else tokenize query

/-- A condition whose `mode` is not `regex`. -/
def conditionNoRegex (c : FilterCondition) : Bool :=
  decide (c.mode ≠ MatchMode.regex)

def groupNoRegex (g : OrGroup) : Bool :=
  g.conditions.all conditionNoRegex

/-- No regex-mode condition anywhere in the parsed query. -/
def queryNoRegex (q : ParsedQuery) : Bool :=
  q.tagGroups.all groupNoRegex &&
  q.packageGroups.all groupNoRegex &&
  q.messageGroups.all groupNoRegex

/-- A concrete oracle under which every pattern fails to compile; used to
instantiate oracle-quantified theorems on queries that never consult the
oracle. -/
def noRegexOracle : RegexOracle := fun _ _ => none

/-- A small concrete record builder for the concrete scenarios. -/
def sampleEntry (n : Int) (lvl : LogLevel) (tg msg : String) : LogEntry :=
  { id := n, timestamp := "00:00:00.000", pid := 1, tid := 1,
    level := lvl, tag := tg, message := msg }

/-- Record whose tag is lower-case `"hello"`, against the upper-case query
`"HELLO"` with `isCaseSensitive = true`. -/
def eHello : LogEntry := sampleEntry 1 .I "hello" "msg"

def stateHello : LogState := { initialState with logs := [eHello] }

def patchHello : FilterPatch :=
  { searchText := some "HELLO", isCaseSensitive := some true }

/-- The `isCaseSensitive = true` configuration of the counterexamples. -/
def cfgHello : FilterConfig :=
  { DEFAULT_FILTER with searchText := "HELLO", isCaseSensitive := true }

/-- A store capped at two retained records. -/
def maxTwo : LogState := { initialState with settings := { maxLogLines := 2 } }

def rec1 : LogEntry := sampleEntry 1 .I "T" "m"

def rec2 : LogEntry := sampleEntry 2 .I "T" "m"

def rec3 : LogEntry := sampleEntry 3 .I "T" "m"

/-- A record carrying a (nonzero) epoch, for the age-window scenarios. -/
def eAge : LogEntry := { sampleEntry 1 .I "T" "m" with epoch := some 1 }


/-! ## Shared helper lemmas -/

theorem listAllCongr {α : Type} {f g : α → Bool} :
    ∀ (l : List α), (∀ x ∈ l, f x = g x) → l.all f = l.all g
  | [], _ => rfl
  | x :: xs, h => by
    simp only [List.all_cons, h x (List.mem_cons_self x xs),
      listAllCongr xs (fun y hy => h y (List.mem_cons_of_mem x hy))]

theorem listAnyCongr {α : Type} {f g : α → Bool} :
    ∀ (l : List α), (∀ x ∈ l, f x = g x) → l.any f = l.any g
  | [], _ => rfl
  | x :: xs, h => by
    simp only [List.any_cons, h x (List.mem_cons_self x xs),
      listAnyCongr xs (fun y hy => h y (List.mem_cons_of_mem x hy))]

/-- With `isRegex = false` and no pid selection, the store's `filterLogs`
is exactly the `matchesQuery` filter — with the matcher's `isCaseSensitive`
parameter at its JS default `false`, since the store does not forward the
flag. -/
theorem filterLogs_no_regex_pid_none (compile : RegexOracle) (now : Int)
    (logs : List LogEntry) (f : FilterConfig) (hreg : f.isRegex = false)
    (hpid : f.pid = none) :
    filterLogs compile now logs f =
      logs.filter (fun log =>
        matchesQuery compile now log (parseLogcatQuery f.searchText) false) := by
  unfold filterLogs
  rw [hreg, hpid]
  simp

/-- On a query that sets only `minLevel = "WARN"`, the matcher reduces to
the severity-rank comparison. -/
theorem minLevel_warn_eval (mc : String → FilterCondition → Bool) (now : Int)
    (entry : LogEntry) (cs : Bool) :
    matchesQueryWith mc now entry { emptyParsedQuery with minLevel := some "WARN" } cs =
      decide (norm2 (jsIndexOf levelOrder entry.level.str) ≥
              norm2 (jsIndexOf levelOrder "WARN")) := by
  simp [matchesQueryWith, emptyParsedQuery]

theorem countLevel_append (l1 l2 : List LogEntry) (lvl : LogLevel) :
    countLevel (l1 ++ l2) lvl = countLevel l1 lvl + countLevel l2 lvl := by
  simp [countLevel, List.filter_append]

theorem countLevel_cons (e : LogEntry) (l : List LogEntry) (lvl : LogLevel) :
    countLevel (e :: l) lvl = (if e.level = lvl then 1 else 0) + countLevel l lvl := by
  simp only [countLevel, List.filter_cons]
  by_cases h : e.level = lvl
  · simp [h]
    omega
  · simp [h]

theorem get_inc (b : ByLevel) (l' l : LogLevel) :
    (b.inc l').get l = b.get l + (if l' = l then 1 else 0) := by
  cases l' <;> cases l <;> simp [ByLevel.inc, ByLevel.get]

theorem get_dec (b : ByLevel) (l' l : LogLevel) :
    (b.dec l').get l = b.get l - (if l' = l then 1 else 0) := by
  cases l' <;> cases l <;> simp [ByLevel.dec, ByLevel.get]

theorem foldl_inc_get (entries : List LogEntry) :
    ∀ (b : ByLevel) (l : LogLevel),
      (entries.foldl (fun b e => b.inc e.level) b).get l =
        b.get l + countLevel entries l := by
  induction entries with
  | nil => intro b l; simp [countLevel]
  | cons e es ih =>
    intro b l
    rw [List.foldl_cons, ih, get_inc, countLevel_cons]
    omega

theorem foldl_dec_get (rs : List LogEntry) :
    ∀ (b : ByLevel) (l : LogLevel),
      (rs.foldl (fun b e => b.dec e.level) b).get l =
        b.get l - countLevel rs l := by
  induction rs with
  | nil => intro b l; simp [countLevel]
  | cons e es ih =>
    intro b l
    rw [List.foldl_cons, ih, get_dec, countLevel_cons]
    omega

/-- Each record has exactly one severity, so the six per-level counts sum
to the list length. -/
theorem countLevel_total (logs : List LogEntry) :
    countLevel logs .V + countLevel logs .D + countLevel logs .I +
    countLevel logs .W + countLevel logs .E + countLevel logs .A = logs.length := by
  induction logs with
  | nil => simp [countLevel]
  | cons e es ih =>
    simp only [countLevel_cons, List.length_cons]
    cases e.level <;> simp <;> omega

theorem calculateStats_inv (logs fl : List LogEntry) :
    (∀ l : LogLevel, (calculateStats logs fl).byLevel.get l = countLevel logs l) ∧
    (calculateStats logs fl).total = (logs.length : Int) :=
  ⟨fun l => by cases l <;> rfl, rfl⟩

/-- `addLogs` preserves the exact-count invariant: the per-step clamped
decrements never clip because every evicted record is counted in the
merged list. -/
theorem statsCountInv_addLogs (compile : RegexOracle) (now : Int) (s : LogState)
    (entries : List LogEntry) (h : statsCountInv s) :
    statsCountInv (addLogs compile now s entries) := by
  by_cases hc : (s.isPaused || entries.isEmpty) = true
  · rw [addLogs, if_pos hc]; exact h
  · rw [addLogs, if_neg hc]
    obtain ⟨hb, ht⟩ := h
    constructor
    · intro l
      simp only [foldl_dec_get, foldl_inc_get, hb l]
      have hsplit := List.take_append_drop
        (if (s.logs ++ entries).length > s.settings.maxLogLines
         then (s.logs ++ entries).length - s.settings.maxLogLines else 0)
        (s.logs ++ entries)
      have hcnt : countLevel (s.logs ++ entries) l =
          countLevel s.logs l + countLevel entries l :=
        countLevel_append s.logs entries l
      rw [← hsplit, countLevel_append] at hcnt
      omega
    · simp only [ht]
      have hlen : ∀ n : Nat,
          ((s.logs ++ entries).take n).length + ((s.logs ++ entries).drop n).length =
            (s.logs ++ entries).length := by
        intro n
        rw [← List.length_append, List.take_append_drop]
      have := hlen (if (s.logs ++ entries).length > s.settings.maxLogLines
         then (s.logs ++ entries).length - s.settings.maxLogLines else 0)
      simp only [List.length_append] at this ⊢
      omega

/-- Every reachable state carries exact per-level counts and an exact
total. -/
theorem reachable_statsCountInv {s : LogState} (h : Reachable s) :
    statsCountInv s := by
  induction h with
  | init => exact ⟨fun l => by cases l <;> rfl, rfl⟩
  | addLogs compile now entries _ ih => exact statsCountInv_addLogs compile now _ entries ih
  | setFilter compile now p _ ih => exact calculateStats_inv _ _
  | resetFilter compile now _ ih => exact calculateStats_inv _ _
  | clearLogs _ ih => exact ⟨fun l => by cases l <;> rfl, rfl⟩
  | importLogs compile now entries _ ih => exact calculateStats_inv _ _

theorem processToken_congr {pkv1 pkv2 : String → Option KV} {t : String}
    (h : pkv1 t = pkv2 t) (acc : ParsedQuery) :
    processToken pkv1 acc t = processToken pkv2 acc t := by
  simp only [processToken, h]

theorem processTokenOr_congr {pkv1 pkv2 : String → Option KV} {t : String}
    (h : pkv1 t = pkv2 t) (acc : OrAccum) :
    processTokenOr pkv1 acc t = processTokenOr pkv2 acc t := by
  simp only [processTokenOr, h]

theorem foldl_processToken_congr {pkv1 pkv2 : String → Option KV} :
    ∀ (toks : List String) (acc : ParsedQuery),
      (∀ t ∈ toks, pkv1 t = pkv2 t) →
      toks.foldl (processToken pkv1) acc = toks.foldl (processToken pkv2) acc
  | [], _, _ => rfl
  | t :: ts, acc, h => by
    rw [List.foldl_cons, List.foldl_cons,
      processToken_congr (h t (List.mem_cons_self t ts)),
      foldl_processToken_congr ts _ (fun x hx => h x (List.mem_cons_of_mem t hx))]

theorem foldl_processTokenOr_congr {pkv1 pkv2 : String → Option KV} :
    ∀ (toks : List String) (acc : OrAccum),
      (∀ t ∈ toks, pkv1 t = pkv2 t) →
      toks.foldl (processTokenOr pkv1) acc = toks.foldl (processTokenOr pkv2) acc
  | [], _, _ => rfl
  | t :: ts, acc, h => by
    rw [List.foldl_cons, List.foldl_cons,
      processTokenOr_congr (h t (List.mem_cons_self t ts)),
      foldl_processTokenOr_congr ts _ (fun x hx => h x (List.mem_cons_of_mem t hx))]

theorem foldl_orParts_congr {pkv1 pkv2 : String → Option KV} :
    ∀ (parts : List String) (acc : OrAccum),
      (∀ t ∈ parts.flatMap tokenize, pkv1 t = pkv2 t) →
      parts.foldl (fun a part => (tokenize part).foldl (processTokenOr pkv1) a) acc =
      parts.foldl (fun a part => (tokenize part).foldl (processTokenOr pkv2) a) acc
  | [], _, _ => rfl
  | p :: ps, acc, h => by
    rw [List.foldl_cons, List.foldl_cons,
      foldl_processTokenOr_congr (tokenize p) acc
        (fun t ht => h t (by simp only [List.flatMap_cons, List.mem_append]; exact Or.inl ht)),
      foldl_orParts_congr ps _ (fun t ht => h t (by
        simp only [List.flatMap_cons, List.mem_append]
        exact Or.inr ht))]

/-- The two parsers agree on any query whose tokens they key-value-parse
identically. -/
theorem parseLogcatQueryWith_congr (pkv1 pkv2 : String → Option KV) (query : String)
    (h : ∀ t ∈ queryTokens query, pkv1 t = pkv2 t) :
    parseLogcatQueryWith pkv1 query = parseLogcatQueryWith pkv2 query := by
  by_cases htrim : jsTrim query = ""
  · simp [parseLogcatQueryWith, htrim]
  · by_cases hlen : (splitOrParts query).length > 1
    · have h' : ∀ t ∈ (splitOrParts query).flatMap tokenize, pkv1 t = pkv2 t := by
        intro t ht
        apply h
        simpa [queryTokens, hlen] using ht
      simp only [parseLogcatQueryWith, htrim, if_false, hlen, if_true,
        foldl_orParts_congr _ _ h']
    · have h' : ∀ t ∈ tokenize query, pkv1 t = pkv2 t := by
        intro t ht
        apply h
        simpa [queryTokens, hlen] using ht
      simp only [parseLogcatQueryWith, htrim, if_false, hlen, if_true,
        foldl_processToken_congr _ _ h']

/-- The owner's and the worker's `matchCondition` differ only in the regex
flags, so they agree on every non-regex condition. -/
theorem matchCondition_eq_worker (compile : RegexOracle) (v : String)
    (c : FilterCondition) (h : c.mode ≠ MatchMode.regex) :
    matchCondition compile v c = workerMatchCondition compile v c := by
  cases hm : c.mode
  · simp [matchCondition, workerMatchCondition, hm]
  · simp [matchCondition, workerMatchCondition, hm]
  · exact absurd hm h

theorem matchOrGroupWith_congr {mc1 mc2 : String → FilterCondition → Bool}
    (v : String) (g : OrGroup)
    (h : ∀ c ∈ g.conditions, mc1 v c = mc2 v c) :
    matchOrGroupWith mc1 v g = matchOrGroupWith mc2 v g := by
  simp only [matchOrGroupWith]
  rw [listAllCongr (g.conditions.filter fun c => c.exclude)
    (fun c hc => h c (List.mem_of_mem_filter hc))]
  rw [listAnyCongr (g.conditions.filter fun c => !c.exclude)
    (fun c hc => h c (List.mem_of_mem_filter hc))]

theorem matchesQueryWith_congr {mc1 mc2 : String → FilterCondition → Bool}
    (now : Int) (e : LogEntry) (q : ParsedQuery) (cs : Bool)
    (hq : queryNoRegex q = true)
    (hmc : ∀ v c, c.mode ≠ MatchMode.regex → mc1 v c = mc2 v c) :
    matchesQueryWith mc1 now e q cs = matchesQueryWith mc2 now e q cs := by
  simp only [queryNoRegex, Bool.and_eq_true, List.all_eq_true] at hq
  obtain ⟨⟨htag, hpkg⟩, hmsg⟩ := hq
  have groupCong : ∀ (g : OrGroup), groupNoRegex g = true → ∀ v,
      matchOrGroupWith mc1 v g = matchOrGroupWith mc2 v g := by
    intro g hg v
    apply matchOrGroupWith_congr
    intro c hc
    apply hmc
    have := (List.all_eq_true.mp hg) c hc
    simpa [conditionNoRegex] using this
  rw [matchesQueryWith, matchesQueryWith]
  rw [listAllCongr q.tagGroups (fun g hg => groupCong g (htag g hg) e.tag)]
  rw [listAllCongr q.messageGroups (fun g hg => groupCong g (hmsg g hg) e.message)]
  rw [listAllCongr q.packageGroups (fun g hg => by
    rw [groupCong g (hpkg g hg) (e.packageName.getD "")])]


/-! ## The claims -/

/-- C1 (counterexample): a record tagged `"hello"` survives the full
recompute by `setFilter` of the query `"HELLO"` with
`isCaseSensitive = true`, although case-sensitive
`matchesQuery(·, parse("HELLO"), true)` filtering would reject it —
the store never forwards the flag, so the claimed equation fails. -/
theorem c1_case_flag_not_forwarded_counterexample :
    (setFilter noRegexOracle 0 stateHello patchHello).filter.isCaseSensitive = true ∧
    (setFilter noRegexOracle 0 stateHello patchHello).filter.searchText = "HELLO" ∧
    (setFilter noRegexOracle 0 stateHello patchHello).filteredLogs = [eHello] ∧
    (setFilter noRegexOracle 0 stateHello patchHello).logs.filter
      (fun r => matchesQuery noRegexOracle 0 r (parseLogcatQuery "HELLO") true) = [] := by
  decide

/-- C1 (amended): after a full recompute (`setFilter`, `resetFilter`,
`importLogs`) with `isRegex = false` and no pid selection, `filteredLogs`
equals `logs.filter(r => matchesQuery(r, parseLogcatQuery(searchText), false))`
element-for-element in original order; the free-text portion is matched
case-insensitively regardless of `filter.isCaseSensitive`, which the store
path ignores entirely when `isRegex` is off. -/
theorem c1_full_recompute_amended :
    (∀ (compile : RegexOracle) (now : Int) (s : LogState) (p : FilterPatch),
      (applyPatch s.filter p).isRegex = false → (applyPatch s.filter p).pid = none →
      (setFilter compile now s p).filteredLogs =
        s.logs.filter (fun r =>
          matchesQuery compile now r
            (parseLogcatQuery (applyPatch s.filter p).searchText) false)) ∧
    (∀ (compile : RegexOracle) (now : Int) (s : LogState),
      (resetFilter compile now s).filteredLogs =
        s.logs.filter (fun r =>
          matchesQuery compile now r (parseLogcatQuery "") false)) ∧
    (∀ (compile : RegexOracle) (now : Int) (s : LogState) (entries : List LogEntry),
      s.filter.isRegex = false → s.filter.pid = none →
      (importLogs compile now s entries).filteredLogs =
        entries.filter (fun r =>
          matchesQuery compile now r (parseLogcatQuery s.filter.searchText) false)) ∧
    (∀ (compile : RegexOracle) (now : Int) (logs : List LogEntry)
       (f : FilterConfig) (b b' : Bool), f.isRegex = false →
      filterLogs compile now logs { f with isCaseSensitive := b } =
        filterLogs compile now logs { f with isCaseSensitive := b' }) := by
  refine ⟨?_, ?_, ?_, ?_⟩
  · intro compile now s p hreg hpid
    rw [setFilter]
    exact filterLogs_no_regex_pid_none compile now s.logs _ hreg hpid
  · intro compile now s
    rw [resetFilter]
    exact filterLogs_no_regex_pid_none compile now s.logs DEFAULT_FILTER rfl rfl
  · intro compile now s entries hreg hpid
    rw [importLogs]
    exact filterLogs_no_regex_pid_none compile now entries _ hreg hpid
  · intro compile now logs f b b' hreg
    rw [filterLogs, filterLogs]
    simp [hreg]

/-- C1 (witness): the amended recompute equation at a concrete store and
patch. -/
theorem c1_full_recompute_amended_witness :
    (setFilter noRegexOracle 0 stateHello { searchText := some "msg" }).filteredLogs =
      stateHello.logs.filter (fun r =>
        matchesQuery noRegexOracle 0 r
          (parseLogcatQuery
            (applyPatch stateHello.filter { searchText := some "msg" }).searchText)
          false) :=
  c1_full_recompute_amended.1 noRegexOracle 0 stateHello
    { searchText := some "msg" } rfl rfl

/-- C2: an `OrGroup` matches iff every exclude-condition passes and
(there are no include-conditions or at least one include-condition
matches); `parseLogcatQuery "tag:A | tag:B"` yields one merged tag group
`[A, B]`, under which tag `"A"` matches, tag `"B"` matches, and tag `"C"`
does not. -/
theorem c2_orGroup_semantics_and_tag_or_merge :
    (∀ (mc : String → FilterCondition → Bool) (value : String) (group : OrGroup),
      matchOrGroupWith mc value group = true ↔
        ((∀ c ∈ group.conditions, c.exclude = true → mc value c = true) ∧
         ((∀ c ∈ group.conditions, c.exclude = true) ∨
          ∃ c ∈ group.conditions, c.exclude = false ∧ mc value c = true))) ∧
    parseLogcatQuery "tag:A | tag:B" =
      { emptyParsedQuery with
          tagGroups := [{ conditions :=
            [{ value := "A", mode := .contains, exclude := false },
             { value := "B", mode := .contains, exclude := false }] }] } ∧
    (∀ (compile : RegexOracle) (now : Int),
      matchesQuery compile now (sampleEntry 1 .I "A" "m")
        (parseLogcatQuery "tag:A | tag:B") false = true ∧
      matchesQuery compile now (sampleEntry 2 .I "B" "m")
        (parseLogcatQuery "tag:A | tag:B") false = true ∧
      matchesQuery compile now (sampleEntry 3 .I "C" "m")
        (parseLogcatQuery "tag:A | tag:B") false = false) := by
  refine ⟨?_, by decide, fun compile now => ⟨rfl, rfl, rfl⟩⟩
  intro mc value group
  by_cases h : group.conditions = []
  · simp [matchOrGroupWith, h]
  · simp only [matchOrGroupWith, h, if_false]
    split_ifs with h1 h2
    · simp only [List.any_eq_true, List.mem_filter, List.all_eq_true] at h1 ⊢
      constructor
      · intro hany
        refine ⟨fun c hc hex => h1 c ⟨hc, hex⟩, Or.inr ?_⟩
        obtain ⟨c, ⟨hc, hinc⟩, hmc⟩ := hany
        exact ⟨c, hc, by simpa using hinc, hmc⟩
      · rintro ⟨hex, hinc | ⟨c, hc, hcex, hmc⟩⟩
        · exfalso
          apply h2
          rw [List.filter_eq_nil_iff]
          intro c hc
          simp [hinc c hc]
        · exact ⟨c, ⟨hc, by simp [hcex]⟩, hmc⟩
    · simp only [List.all_eq_true, List.mem_filter] at h1
      rw [Decidable.not_not] at h2
      rw [List.filter_eq_nil_iff] at h2
      simp only [true_iff]
      refine ⟨fun c hc hex => h1 c ⟨hc, hex⟩, Or.inl fun c hc => ?_⟩
      have := h2 c hc
      simpa using this
    · simp only [List.all_eq_true, List.mem_filter] at h1
      simp only [false_iff, not_and]
      intro hex
      exfalso
      exact h1 fun c ⟨hc, hcex⟩ => hex c hc hcex

/-- C2 (witness): the OrGroup characterisation and the merged tag group
evaluated at concrete inputs. -/
theorem c2_orGroup_semantics_and_tag_or_merge_witness :
    matchOrGroupWith (fun _ c => decide (c.value = "A")) "x"
      { conditions := [{ value := "A", mode := .contains, exclude := false },
                       { value := "B", mode := .contains, exclude := false }] } = true ∧
    matchesQuery noRegexOracle 0 (sampleEntry 1 .I "A" "m")
      (parseLogcatQuery "tag:A | tag:B") false = true :=
  ⟨(c2_orGroup_semantics_and_tag_or_merge.1 (fun _ c => decide (c.value = "A")) "x"
      { conditions := [{ value := "A", mode := .contains, exclude := false },
                       { value := "B", mode := .contains, exclude := false }] }).mpr
    ⟨by decide, Or.inr (by decide)⟩,
   (c2_orGroup_semantics_and_tag_or_merge.2.2 noRegexOracle 0).1⟩

/-- C3: with `maxLogLines = 2`, appending ids 1, 2, 3 one at a time
retains exactly `[2, 3]` with `stats.total = 2`; in general `addLogs`
never grows `logs` past `maxLogLines` (and trims to it whenever it admits
records), and the retained records are a suffix of
`old logs ++ entries`, so they stay in arrival order. -/
theorem c3_capacity_eviction :
    ((addLogs noRegexOracle 0 (addLogs noRegexOracle 0
        (addLogs noRegexOracle 0 maxTwo [rec1]) [rec2]) [rec3]).logs = [rec2, rec3] ∧
     (addLogs noRegexOracle 0 (addLogs noRegexOracle 0
        (addLogs noRegexOracle 0 maxTwo [rec1]) [rec2]) [rec3]).stats.total = 2) ∧
    (∀ (compile : RegexOracle) (now : Int) (s : LogState) (entries : List LogEntry),
      s.logs.length ≤ s.settings.maxLogLines →
      (addLogs compile now s entries).logs.length ≤ s.settings.maxLogLines) ∧
    (∀ (compile : RegexOracle) (now : Int) (s : LogState) (entries : List LogEntry),
      s.isPaused = false → entries ≠ [] →
      (addLogs compile now s entries).logs <:+ (s.logs ++ entries)) := by
  refine ⟨by decide, ?_, ?_⟩
  · intro compile now s entries h
    by_cases hc : (s.isPaused || entries.isEmpty) = true
    · rw [addLogs, if_pos hc]; exact h
    · rw [addLogs, if_neg hc]
      simp only [List.length_drop, List.length_append]
      split_ifs with hgt
      · simp only [List.length_append] at hgt
        omega
      · simp only [List.length_append] at hgt
        omega
  · intro compile now s entries hp hne
    rw [addLogs, if_neg (by simp [hp, List.isEmpty_iff, hne])]
    exact List.drop_suffix _ _

/-- C3 (witness): the general capacity bound and the suffix property at a
concrete append. -/
theorem c3_capacity_eviction_witness :
    (addLogs noRegexOracle 0 maxTwo [rec1]).logs.length ≤ maxTwo.settings.maxLogLines ∧
    (addLogs noRegexOracle 0 maxTwo [rec1]).logs <:+ (maxTwo.logs ++ [rec1]) :=
  ⟨c3_capacity_eviction.2.1 noRegexOracle 0 maxTwo [rec1] (by decide),
   c3_capacity_eviction.2.2 noRegexOracle 0 maxTwo [rec1] rfl (by decide)⟩

/-- C4: in every state reachable from the initial store state by
`addLogs`, `setFilter`, `resetFilter`, `clearLogs` and `importLogs`, the
six per-severity counters sum to `stats.total`. -/
theorem c4_byLevel_sum_eq_total {s : LogState} (h : Reachable s) :
    (sumByLevel s.stats.byLevel : Int) = s.stats.total := by
  obtain ⟨hb, ht⟩ := reachable_statsCountInv h
  have hsum : sumByLevel s.stats.byLevel = s.logs.length := by
    have htot := countLevel_total s.logs
    have hv := hb .V
    have hd := hb .D
    have hi := hb .I
    have hw := hb .W
    have he := hb .E
    have ha := hb .A
    simp only [ByLevel.get] at hv hd hi hw he ha
    rw [sumByLevel, hv, hd, hi, hw, he, ha]
    exact htot
  rw [ht, hsum]

/-- C4 (witness): the sum identity at a concrete reachable state (one
append after `init`). -/
theorem c4_byLevel_sum_eq_total_witness :
    (sumByLevel (addLogs noRegexOracle 0 initialState [rec1]).stats.byLevel : Int) =
      (addLogs noRegexOracle 0 initialState [rec1]).stats.total :=
  c4_byLevel_sum_eq_total (Reachable.addLogs noRegexOracle 0 [rec1] Reachable.init)

/-- C5: while paused, `addLogs` is the identity on the whole store state
(logs, filteredLogs and stats are all unchanged, for any entries); when
not paused and within capacity, appending `entries` raises `stats.total`
by exactly `entries.length`. -/
theorem c5_pause_gate :
    (∀ (compile : RegexOracle) (now : Int) (s : LogState) (entries : List LogEntry),
      s.isPaused = true → addLogs compile now s entries = s) ∧
    (∀ (compile : RegexOracle) (now : Int) (s : LogState) (entries : List LogEntry),
      s.isPaused = false → entries ≠ [] →
      s.logs.length + entries.length ≤ s.settings.maxLogLines →
      (addLogs compile now s entries).stats.total =
        s.stats.total + (entries.length : Int)) := by
  constructor
  · intro compile now s entries h
    simp [addLogs, h]
  · intro compile now s entries hp hne hcap
    rw [addLogs]
    rw [if_neg (by simp [hp, List.isEmpty_iff, hne])]
    have hexcess : ¬ ((s.logs ++ entries).length > s.settings.maxLogLines) := by
      simp only [List.length_append]
      omega
    simp only [hexcess, if_false, List.take_zero, List.length_nil]
    simp

/-- C5 (witness): the paused no-op and the exact total increment at
concrete states. -/
theorem c5_pause_gate_witness :
    addLogs noRegexOracle 0 { initialState with isPaused := true } [rec1] =
      { initialState with isPaused := true } ∧
    (addLogs noRegexOracle 0 initialState [rec1]).stats.total =
      initialState.stats.total + (([rec1] : List LogEntry).length : Int) :=
  ⟨c5_pause_gate.1 noRegexOracle 0 { initialState with isPaused := true } [rec1] rfl,
   c5_pause_gate.2 noRegexOracle 0 initialState [rec1] rfl (by decide) (by decide)⟩

/-- C6 (counterexample): `parseLogcatQuery "foo:bar"` returns the empty
query — the unrecognized-key token is dropped, `ParsedQuery.text` does
not contain it. -/
theorem c6_unrecognized_key_counterexample :
    parseLogcatQuery "foo:bar" = emptyParsedQuery ∧
    strIncludes (parseLogcatQuery "foo:bar").text "foo:bar" = false := by
  decide

/-- C6 (amended): a `key:value` token whose key is not one of the
recognized keys is dropped entirely by both parsing loops: it produces no
condition and is NOT folded into the free-text accumulator (because
`parseKeyValue` succeeds, the free-text branch is never reached). -/
theorem c6_unrecognized_key_dropped_amended (token : String) (kv : KV)
    (hp : parseKeyValue token = some kv)
    (hk : kv.key ∉ ["tag", "package", "message", "level", "age", "is"]) :
    (∀ acc : ParsedQuery, processToken parseKeyValue acc token = acc) ∧
    (∀ acc : OrAccum, processTokenOr parseKeyValue acc token = acc) := by
  simp only [List.mem_cons, List.mem_singleton, not_or] at hk
  obtain ⟨h1, h2, h3, h4, h5, h6, _⟩ := hk
  constructor <;> intro acc <;>
    simp [processToken, processTokenOr, hp, processOtherKeys, h1, h2, h3, h4, h5, h6]

/-- C6 (witness): the token `"foo:bar"` leaves both loop accumulators
unchanged. -/
theorem c6_unrecognized_key_dropped_amended_witness :
    processToken parseKeyValue emptyParsedQuery "foo:bar" = emptyParsedQuery ∧
    processTokenOr parseKeyValue
      { tagConds := [], packageConds := [], messageConds := [],
        result := emptyParsedQuery } "foo:bar" =
      { tagConds := [], packageConds := [], messageConds := [],
        result := emptyParsedQuery } :=
  ⟨(c6_unrecognized_key_dropped_amended "foo:bar"
      { key := "foo", value := "bar", mode := .contains, exclude := false }
      (by decide) (by decide)).1 emptyParsedQuery,
   (c6_unrecognized_key_dropped_amended "foo:bar"
      { key := "foo", value := "bar", mode := .contains, exclude := false }
      (by decide) (by decide)).2
     { tagConds := [], packageConds := [], messageConds := [],
       result := emptyParsedQuery }⟩

/-- C7: `"level:WARN"` parses to `minLevel = "WARN"`; a record passes the
resulting query exactly when its level is W, E or A (rank at or above the
minimum); abbreviated letters and full names normalize to the same rank,
case-insensitively. -/
theorem c7_level_warn_semantics :
    parseLogcatQuery "level:WARN" = { emptyParsedQuery with minLevel := some "WARN" } ∧
    (∀ (compile : RegexOracle) (now : Int) (entry : LogEntry) (cs : Bool),
      matchesQuery compile now entry (parseLogcatQuery "level:WARN") cs = true ↔
        (entry.level = .W ∨ entry.level = .E ∨ entry.level = .A)) ∧
    (∀ p ∈ [("V", "VERBOSE"), ("D", "DEBUG"), ("I", "INFO"),
            ("W", "WARN"), ("E", "ERROR"), ("A", "ASSERT")],
      norm2 (jsIndexOf levelOrder p.1) = norm2 (jsIndexOf levelOrder p.2)) ∧
    (∀ s ∈ ["warn", "WARN", "wArN", "w", "W"],
      ∃ ml, (parseLogcatQuery ("level:" ++ s)).minLevel = some ml ∧
        norm2 (jsIndexOf levelOrder ml) = norm2 (jsIndexOf levelOrder "W")) := by
  have hq : parseLogcatQuery "level:WARN" =
      { emptyParsedQuery with minLevel := some "WARN" } := by decide
  refine ⟨hq, ?_, by decide, by decide⟩
  intro compile now entry cs
  rw [hq, matchesQuery, minLevel_warn_eval]
  cases entry.level <;> simp [LogLevel.str] <;> decide

/-- C7 (witness): a W-level record passes and the parse is as stated. -/
theorem c7_level_warn_semantics_witness :
    matchesQuery noRegexOracle 0 (sampleEntry 1 .W "T" "m")
      (parseLogcatQuery "level:WARN") false = true :=
  (c7_level_warn_semantics.2.1 noRegexOracle 0 (sampleEntry 1 .W "T" "m") false).mpr
    (Or.inl rfl)

/-- C8 (counterexample): on a record tagged `"Foo"`-style lower/upper case
mismatch, the worker's `filterLogs` (which forwards `isCaseSensitive`)
rejects while the owner's (which does not) accepts — the two copies do
not return the same subset. -/
theorem c8_worker_owner_divergence_counterexample :
    filterLogs noRegexOracle 0 [eHello] cfgHello = [eHello] ∧
    workerFilterLogs noRegexOracle 0 [eHello] cfgHello = [] := by
  decide

/-- C8 (amended): the worker's and the owner's `filterLogs` agree
conditionally: whenever `isCaseSensitive = false`, `isRegex = false`,
every token of the query is parsed identically by the two `parseKeyValue`
implementations, and the parsed query holds no regex-mode condition, the
two return the same filtered subset in the same order.  (They diverge in
general: the flag is forwarded only by the worker, the `parseKeyValue`
implementations differ on tokens mixing separators, and the regex flags
differ.) -/
theorem c8_worker_owner_conditional_equivalence (compile : RegexOracle)
    (now : Int) (logs : List LogEntry) (cfg : FilterConfig)
    (hcs : cfg.isCaseSensitive = false) (hreg : cfg.isRegex = false)
    (htok : ∀ t ∈ queryTokens cfg.searchText,
      parseKeyValue t = workerParseKeyValue t)
    (hnr : queryNoRegex (parseLogcatQuery cfg.searchText) = true) :
    workerFilterLogs compile now logs cfg = filterLogs compile now logs cfg := by
  have hparse : workerParseLogcatQuery cfg.searchText = parseLogcatQuery cfg.searchText :=
    (parseLogcatQueryWith_congr parseKeyValue workerParseKeyValue cfg.searchText htok).symm
  rw [workerFilterLogs, filterLogs, hparse, hreg, hcs]
  simp only [Bool.false_and, Bool.false_eq_true, if_false]
  apply List.filter_congr
  intro log _
  rw [workerMatchesQuery, matchesQuery,
    matchesQueryWith_congr now log _ false hnr
      (fun v c hc => (matchCondition_eq_worker compile v c hc))]

/-- C8 (witness): the conditional equivalence at a concrete query with a
tag condition, a level bound and free text. -/
theorem c8_worker_owner_conditional_equivalence_witness :
    workerFilterLogs noRegexOracle 0 [eHello]
      { DEFAULT_FILTER with searchText := "tag:Foo level:W hello" } =
    filterLogs noRegexOracle 0 [eHello]
      { DEFAULT_FILTER with searchText := "tag:Foo level:W hello" } :=
  c8_worker_owner_conditional_equivalence noRegexOracle 0 [eHello]
    { DEFAULT_FILTER with searchText := "tag:Foo level:W hello" }
    rfl rfl (by decide) (by decide)

/-- C9 (counterexample): `matchesQuery` reads the ambient clock for the
age window, so two invocations with identical record/query/flag arguments
return different booleans at different clock values. -/
theorem c9_clock_dependence_counterexample :
    matchesQuery noRegexOracle 500 eAge (parseLogcatQuery "age:1s") false = true ∧
    matchesQuery noRegexOracle 2000 eAge (parseLogcatQuery "age:1s") false = false := by
  decide

/-- C9 (amended): with its implicit inputs made explicit, `matchesQuery`
is a pure function of (record, query, caseSensitive, regex oracle, clock):
it mutates nothing, and its verdict is independent of the clock exactly
when the query carries no age window, or the record carries no epoch (or
the falsy epoch `0`). -/
theorem c9_purity_modulo_clock_amended (compile : RegexOracle) (entry : LogEntry)
    (query : ParsedQuery) (cs : Bool) (now now' : Int)
    (h : query.age = none ∨ entry.epoch = none ∨ entry.epoch = some 0) :
    matchesQuery compile now entry query cs = matchesQuery compile now' entry query cs := by
  rcases h with h | h | h
  · simp [matchesQuery, matchesQueryWith, h]
  · simp [matchesQuery, matchesQueryWith, h]
  · cases hq : query.age <;> simp [matchesQuery, matchesQueryWith, h, hq]

/-- C9 (witness): clock-independence of an age-free query at two distant
clock values. -/
theorem c9_purity_modulo_clock_amended_witness :
    matchesQuery noRegexOracle 5 (sampleEntry 1 .I "T" "m")
      (parseLogcatQuery "tag:T") false =
    matchesQuery noRegexOracle 99999 (sampleEntry 1 .I "T" "m")
      (parseLogcatQuery "tag:T") false :=
  c9_purity_modulo_clock_amended noRegexOracle (sampleEntry 1 .I "T" "m")
    (parseLogcatQuery "tag:T") false 5 99999 (Or.inl (by decide))

/-- C10: whenever `filter.pid` is set, every record in any `filterLogs`
recompute carries exactly that pid; a record satisfying the query but
carrying a different pid is excluded; and `selectProcess` installs the
process's pid into the filter so the recomputed view is pid-restricted. -/
theorem c10_pid_filter_restricts :
    (∀ (compile : RegexOracle) (now : Int) (logs : List LogEntry)
       (f : FilterConfig) (p : Int),
      f.pid = some p →
        (∀ entry ∈ filterLogs compile now logs f, entry.pid = p)) ∧
    (∀ (compile : RegexOracle) (now : Int) (logs : List LogEntry)
       (f : FilterConfig) (p : Int) (entry : LogEntry),
      f.pid = some p → entry.pid ≠ p →
        entry ∉ filterLogs compile now logs f) ∧
    (∀ (compile : RegexOracle) (now : Int) (s : LogState) (proc : ProcessInfo),
      (selectProcess compile now s (some proc)).filter.pid = some proc.pid ∧
      ∀ entry ∈ (selectProcess compile now s (some proc)).filteredLogs,
        entry.pid = proc.pid) := by
  have key : ∀ (compile : RegexOracle) (now : Int) (logs : List LogEntry)
      (f : FilterConfig) (p : Int), f.pid = some p →
      ∀ entry ∈ filterLogs compile now logs f, entry.pid = p := by
    intro compile now logs f p hpid entry hmem
    unfold filterLogs at hmem
    rw [hpid] at hmem
    simp only [List.mem_filter, Bool.and_eq_true, decide_eq_true_eq] at hmem
    exact hmem.2.2
  refine ⟨key, ?_, ?_⟩
  · intro compile now logs f p entry hpid hne hmem
    exact hne (key compile now logs f p hpid entry hmem)
  · intro compile now s proc
    have hpid : (applyPatch s.filter { pid := some (some proc.pid) }).pid = some proc.pid := rfl
    refine ⟨hpid, ?_⟩
    intro entry hmem
    exact key compile now s.logs _ proc.pid hpid entry hmem

/-- C10 (witness): a query-matching record with a different pid is kept
out of the filtered view. -/
theorem c10_pid_filter_restricts_witness :
    rec1 ∉ filterLogs noRegexOracle 0 [rec1] { DEFAULT_FILTER with pid := some 99 } :=
  c10_pid_filter_restricts.2.1 noRegexOracle 0 [rec1]
    { DEFAULT_FILTER with pid := some 99 } 99 rec1 rfl (by decide)

end Logcat
